import Mathlib

/-!
Verification development for the treemux repository.

Part 1 embeds the OpenTelemetry middleware from
`extra/treemuxotel/treemuxotel.go` (the only Go source file present):
the `config` options machinery, `NewMiddleware`, `config.Middleware`
and `remoteAddr`, together with a model of Go's `net.SplitHostPort`.

Part 2 (namespace `Treemux`) models the routing tree described by the
specification (pattern parsing with escaping, insertion with the
first-registered trailing-slash flag, and priority-ordered lookup with
backtracking over static / wildcard / catch-all children); the tree
implementation itself is not among the provided source files, so those
definitions are modelled from the specification text.
-/

set_option maxHeartbeats 1000000

/-- Embedding of `treemux.Param`: one named path parameter, an ordered
pair of name and value. -/
structure Param where
  Name : String
  Value : String
deriving DecidableEq

/-- The part of Go's `http.Request` read by the middleware: the
`X-Forwarded-For` header value (empty string when the header is absent,
as returned by `Header.Get`) and the `RemoteAddr` field. -/
structure HttpRequest where
  xForwardedFor : String
  RemoteAddr : String

/-- Embedding of `treemux.Request`: the wrapped `http.Request`, the
ordered parameter list, the matched route pattern (the `Route()`
accessor) and whether the span carried by the request context is
recording (`trace.SpanFromContext(req.Context()).IsRecording()`). -/
structure Request where
  request : HttpRequest
  Params : List Param
  route : String
  spanRecording : Bool

/-- Embedding of `label.KeyValue`: one span attribute.  `label.String`
and the `semconv` key constructors all build string-valued attributes. -/
structure KeyValue where
  Key : String
  Value : String
deriving DecidableEq

/-- Index of the last occurrence of a character in a list, mirroring
Go's `last(hostport, ':')` helper used by `net.SplitHostPort`. -/
def lastIndexOf (c : Char) : List Char → Option Nat
  | [] => none
  | a :: rest =>
    match lastIndexOf c rest with
    | some i => some (i + 1)
    | none => if a = c then some 0 else none

/-- Index of the first occurrence of a character in a list, mirroring
Go's `byteIndex(hostport, ']')` helper used by `net.SplitHostPort`. -/
def firstIndexOf (c : Char) : List Char → Option Nat
  | [] => none
  | a :: rest => if a = c then some 0 else (firstIndexOf c rest).map (· + 1)

/-- Model of Go's `net.SplitHostPort` on character lists, following the
algorithm of `net/ipsock.go`: the port starts after the last colon; a
leading `[` introduces a bracketed (IPv6) host whose closing `]` must
sit just before that colon; stray colons or brackets are errors. -/
def splitHostPortChars (hostport : List Char) : Except String (List Char × List Char) :=
  match lastIndexOf ':' hostport with
  | none => .error "missing port in address"
  | some i =>
    if hostport.take 1 = ['['] then
      match firstIndexOf ']' hostport with
      | none => .error "missing right bracket in address"
      | some e =>
        if e + 1 = hostport.length then .error "missing port in address"
        else if e + 1 = i then
          if (hostport.drop 1).contains '[' then .error "unexpected left bracket in address"
          else if (hostport.drop (e + 1)).contains ']' then .error "unexpected right bracket in address"
          else .ok ((hostport.take e).drop 1, hostport.drop (i + 1))
        else if (hostport.drop (e + 1)).take 1 = [':'] then .error "too many colons in address"
        else .error "missing port in address"
    else
      if (hostport.take i).contains ':' then .error "too many colons in address"
      else if hostport.contains '[' then .error "unexpected left bracket in address"
      else if hostport.contains ']' then .error "unexpected right bracket in address"
      else .ok (hostport.take i, hostport.drop (i + 1))

/-- String-level wrapper for `net.SplitHostPort` as consumed by
`remoteAddr`: Go returns `host = "", port = ""` together with the error,
and `remoteAddr` discards the error, so the error case collapses to a
pair of empty strings. -/
def splitHostPort (hostport : String) : String × String :=
  match splitHostPortChars hostport.data with
  | .ok (host, port) => (⟨host⟩, ⟨port⟩)
  | .error _ => ("", "")

/-- Embedding of `remoteAddr` from `treemuxotel.go`: return the
`X-Forwarded-For` header verbatim when non-empty, otherwise the host
half of `net.SplitHostPort(req.RemoteAddr)` with the split error
discarded (`host, _, _ :=`). -/
def remoteAddr (req : HttpRequest) : String :=
  let forwarded := req.xForwardedFor
  if forwarded ≠ "" then forwarded
  else (splitHostPort req.RemoteAddr).1

/-- Embedding of the `config` struct of `treemuxotel.go`. -/
structure config where
  clientIP : Bool

/-- Embedding of the `Option` function type of `treemuxotel.go`
(named `ConfigOption` here because `Option` is taken by Lean); the Go
value mutates the config through a pointer, modelled functionally. -/
def ConfigOption : Type := config → config

/-- Embedding of `WithClientIP`. -/
def WithClientIP (flag : Bool) : ConfigOption :=
  fun c => { c with clientIP := flag }

/-- The config built by `NewMiddleware`: start from `clientIP: true`
and apply the options in order (Go's `for _, opt := range opts`). -/
def newMiddlewareConfig (opts : List ConfigOption) : config :=
  opts.foldl (fun c opt => opt c) { clientIP := true }

/-- Stand-in for `http.ResponseWriter`; the middleware never inspects
it and only forwards it to the wrapped handler. -/
structure ResponseWriter where
  id : Nat

/-- Result of a `treemux.HandlerFunc`: `none` models a `nil` error. -/
abbrev HandlerResult := Option String

/-- Embedding of `treemux.HandlerFunc`. -/
def HandlerFunc : Type := ResponseWriter → Request → HandlerResult

/-- The span attribute set for one `Param` by the loop body of
`config.Middleware`: key `"http.route.param."` plus the parameter name
(the literal `"*"` when the name is empty), value unchanged. -/
def paramAttr (param : Param) : KeyValue :=
  ⟨"http.route.param." ++ (if param.Name = "" then "*" else param.Name), param.Value⟩

/-- Embedding of `config.Middleware` from `treemuxotel.go`.  The
wrapped handler's observable behaviour is the batch of span attributes
it sets (`span.SetAttributes` is called once with the whole slice;
the batch is empty when the span is not recording, in which case the
handler returns `next(w, req)` immediately) paired with the value
returned by `next(w, req)`. -/
def Middleware (c : config) (next : HandlerFunc) (w : ResponseWriter) (req : Request) :
    List KeyValue × HandlerResult :=
  if !req.spanRecording then ([], next w req)
  else
    let attrs : List KeyValue := [⟨"http.route", req.route⟩]
    let attrs := if c.clientIP then attrs ++ [⟨"http.client_ip", remoteAddr req.request⟩] else attrs
    let attrs := attrs ++ req.Params.map paramAttr
    (attrs, next w req)

/-- Embedding of `NewMiddleware`: build the config from the options and
return its `Middleware` method. -/
def NewMiddleware (opts : List ConfigOption) :
    HandlerFunc → ResponseWriter → Request → List KeyValue × HandlerResult :=
  Middleware (newMiddlewareConfig opts)

/-- A handler that always succeeds (returns a `nil` error). -/
def nextNone : HandlerFunc := fun _ _ => none

/-- A concrete response writer. -/
def writer0 : ResponseWriter := ⟨0⟩

/-- A concrete request whose span is recording, carrying a named and an
anonymous (catch-all) parameter. -/
def reqRec : Request :=
  ⟨⟨"", "10.0.0.1:123"⟩, [⟨"id", "7"⟩, ⟨"", "a/b"⟩], "/r/:id/*x", true⟩

/-- A concrete request whose span is not recording. -/
def reqNoRec : Request := ⟨⟨"", "10.0.0.1:123"⟩, [], "/r", false⟩

/-- Attributes whose key starts with `"http.route.param."`. -/
def isRouteParamAttr (kv : KeyValue) : Bool :=
  List.isPrefixOf "http.route.param.".data kv.Key.data

/-- Attributes whose key is `semconv.HTTPClientIPKey`. -/
def isClientIPAttr (kv : KeyValue) : Bool :=
  kv.Key == "http.client_ip"

namespace Treemux

/-- Character-list representation of path and pattern fragments; the
spec's node fragments are byte sequences, modelled here as `List Char`. -/
abbrev Str := List Char

/-- Modelled from the spec: one pattern segment, tagged `static`,
`wildcard` (`:name`, one path component) or `catchAll` (`*name`, the
whole remainder, must terminate the pattern). -/
inductive Seg : Type where
  | static (fragment : Str) : Seg
  | wildcard (name : Str) : Seg
  | catchAll (name : Str) : Seg
deriving DecidableEq

/-- Modelled from the spec: one routing-tree vertex, with a per-method
handler table, the trailing-slash flag (unset until the first pattern
terminating here fixes it), the ordered static children, at most one
wildcard child, and at most one catch-all child (which, per the spec,
terminates the pattern, so it carries only a name and a method table).
The spec's radix fragments are kept at whole-segment granularity:
splitting shared byte prefixes is an efficiency device that does not
change the match relation, because wildcards occupy whole segments and
static matching is exact. -/
inductive Node : Type where
  | mk : (entries : List (String × Nat)) → (slash : Option Bool) →
      (statics : List (Str × Node)) → (wild : Option (Str × Node)) →
      (catchA : Option (Str × List (String × Nat))) → Node

def Node.entries : Node → List (String × Nat)
  | .mk e _ _ _ _ => e

def Node.slash : Node → Option Bool
  | .mk _ s _ _ _ => s

def Node.statics : Node → List (Str × Node)
  | .mk _ _ st _ _ => st

def Node.wild : Node → Option (Str × Node)
  | .mk _ _ _ w _ => w

def Node.catchA : Node → Option (Str × List (String × Nat))
  | .mk _ _ _ _ c => c

@[simp] theorem Node.entries_mk (e s st w c) : Node.entries (.mk e s st w c) = e := rfl

@[simp] theorem Node.slash_mk (e s st w c) : Node.slash (.mk e s st w c) = s := rfl

@[simp] theorem Node.statics_mk (e s st w c) : Node.statics (.mk e s st w c) = st := rfl

@[simp] theorem Node.wild_mk (e s st w c) : Node.wild (.mk e s st w c) = w := rfl

@[simp] theorem Node.catchA_mk (e s st w c) : Node.catchA (.mk e s st w c) = c := rfl

/-- A node with no handlers, no flag and no children. -/
def emptyNode : Node := .mk [] none [] none none

/-- First static child stored under the given segment key, if any. -/
def findStatic : List (Str × Node) → Str → Option Node
  | [], _ => none
  | (k, child) :: rest, seg => if k = seg then some child else findStatic rest seg

/-- Replace the static child stored under a key, or append a new one. -/
def setStatic : List (Str × Node) → Str → Node → List (Str × Node)
  | [], k, v => [(k, v)]
  | (k1, v1) :: rest, k, v =>
    if k1 = k then (k1, v) :: rest else (k1, v1) :: setStatic rest k v

/-- Split a character list at every occurrence of the separator; like
`strings.Split`, the empty list yields one empty segment. -/
def splitChars (sep : Char) : List Char → List Str
  | [] => [[]]
  | c :: rest =>
    match splitChars sep rest with
    | [] => [[c]]
    | s :: ss => if c = sep then [] :: s :: ss else (c :: s) :: ss

/-- Rejoin segments with `/`; inverse of `splitChars '/'`. -/
def joinSlash : List Str → Str
  | [] => []
  | [s] => s
  | s :: rest => s ++ '/' :: joinSlash rest

/-- Value of a hexadecimal digit. -/
def hexVal (c : Char) : Option Nat :=
  if '0' ≤ c ∧ c ≤ '9' then some (c.toNat - '0'.toNat)
  else if 'a' ≤ c ∧ c ≤ 'f' then some (c.toNat - 'a'.toNat + 10)
  else if 'A' ≤ c ∧ c ≤ 'F' then some (c.toNat - 'A'.toNat + 10)
  else none

/-- Modelled from the spec: percent-decode a captured parameter value
exactly once, after segment boundaries were established on the raw
path; an ill-formed escape is kept literally. -/
def unescapePercent : List Char → List Char
  | '%' :: a :: b :: rest =>
    match hexVal a, hexVal b with
    | some x, some y => Char.ofNat (16 * x + y) :: unescapePercent rest
    | _, _ => '%' :: unescapePercent (a :: b :: rest)
  | c :: rest => c :: unescapePercent rest
  | [] => []

/-- Modelled from the spec: resolve a pattern segment, recognizing the
leading `:` (wildcard) and `*` (catch-all) markers and the start-of-
segment escapes `\:`, `\*` and `\\` which produce literal characters. -/
def parseSeg (fragment : Str) : Seg :=
  match fragment with
  | ':' :: rest => .wildcard rest
  | '*' :: rest => .catchAll rest
  | '\\' :: ':' :: rest => .static (':' :: rest)
  | '\\' :: '*' :: rest => .static ('*' :: rest)
  | '\\' :: '\\' :: rest => .static ('\\' :: rest)
  | _ => .static fragment

/-- Modelled from the spec: decompose a registration pattern into its
segment sequence plus the trailing-slash presence (an unescaped final
`/` is stripped and recorded); patterns must begin with `/`. -/
def parsePattern (pattern : String) : Except String (List Seg × Bool) :=
  match pattern.data with
  | '/' :: rest =>
    let hasSlash : Bool := rest.getLast? == some '/'
    let body := if hasSlash then rest.dropLast else rest
    .ok ((splitChars '/' body).map parseSeg, hasSlash)
  | _ => .error "pattern must begin with a slash"

/-- First-registered-wins update of the trailing-slash flag: a set
flag is never overwritten by a later registration. -/
def slashUpdate (slash : Option Bool) (hasSlash : Bool) : Option Bool :=
  match slash with
  | none => some hasSlash
  | some b => some b

/-- Modelled from the spec: walk the tree along the parsed segments,
creating or reusing children; at the terminal node record the handler
in the method table (duplicate method = error), update the
trailing-slash flag first-registered-wins, attach or reuse the
wildcard child (conflicting declared names = error) or the catch-all
child (which must be the final segment; a second catch-all under a
different name = error). -/
def insertNode : List Seg → Node → Bool → String → Nat → Except String Node
  | [], .mk entries slash statics wild catchA, hasSlash, method, handler =>
    if (entries.lookup method).isSome then .error "duplicate route"
    else .ok (.mk (entries ++ [(method, handler)]) (slashUpdate slash hasSlash) statics wild catchA)
  | .static fragment :: rest, .mk entries slash statics wild catchA, hasSlash, method, handler =>
    match insertNode rest ((findStatic statics fragment).getD emptyNode) hasSlash method handler with
    | .ok child => .ok (.mk entries slash (setStatic statics fragment child) wild catchA)
    | .error e => .error e
  | .wildcard name :: rest, .mk entries slash statics wild catchA, hasSlash, method, handler =>
    match wild with
    | none =>
      match insertNode rest emptyNode hasSlash method handler with
      | .ok child => .ok (.mk entries slash statics (some (name, child)) catchA)
      | .error e => .error e
    | some (name1, child0) =>
      if name1 = name then
        match insertNode rest child0 hasSlash method handler with
        | .ok child => .ok (.mk entries slash statics (some (name1, child)) catchA)
        | .error e => .error e
      else .error "conflicting wildcard name"
  | [.catchAll name], .mk entries slash statics wild catchA, _, method, handler =>
    match catchA with
    | none => .ok (.mk entries slash statics wild (some (name, [(method, handler)])))
    | some (name1, centries) =>
      if name1 = name then
        if (centries.lookup method).isSome then .error "duplicate route"
        else .ok (.mk entries slash statics wild (some (name1, centries ++ [(method, handler)])))
      else .error "second catch-all at node"
  | .catchAll _ :: _ :: _, _, _, _, _ => .error "catch-all must be the final segment"

/-- Modelled from the spec: `Insert(method, pattern, handler)`. -/
def insert (t : Node) (method pattern : String) (handler : Nat) : Except String Node :=
  match parsePattern pattern with
  | .ok (segs, hasSlash) => insertNode segs t hasSlash method handler
  | .error e => .error e

/-- Left-biased choice, making the matcher's priority order explicit. -/
def orOpt {α : Type} : Option α → Option α → Option α
  | some a, _ => some a
  | none, b => b

@[simp] theorem orOpt_some {α : Type} (a : α) (b : Option α) : orOpt (some a) b = some a := rfl

@[simp] theorem orOpt_none {α : Type} (b : Option α) : orOpt none b = b := rfl

@[simp] theorem orOpt_none_right {α : Type} (a : Option α) : orOpt a none = a := by
  cases a <;> rfl

/-- Modelled from the spec: the catch-all child consumes the entire
remainder of the path as a single `Param`, rejected if the remainder is
empty. -/
def tryCatchAll (catchA : Option (Str × List (String × Nat))) (segs : List Str) :
    Option (List (String × Nat) × List Param) :=
  match catchA with
  | none => none
  | some (name, entries) =>
    let remainder := joinSlash segs
    if remainder = [] then none
    else some (entries, [⟨⟨name⟩, ⟨unescapePercent remainder⟩⟩])

/-- Modelled from the spec: depth-first traversal consuming the path
segments left to right, trying at every node first the static child
with an exactly matching fragment, then the wildcard child (one
non-empty segment, bound percent-decoded), then the catch-all child;
a branch whose subtree fails to produce a full match falls through to
the next-priority branch.  A node terminates a match only if its
method table is non-empty. -/
def searchNode : Node → List Str → Option (List (String × Nat) × List Param)
  | n, [] => if n.entries.isEmpty then none else some (n.entries, [])
  | n, seg :: rest =>
    let stRes :=
      match findStatic n.statics seg with
      | some child => searchNode child rest
      | none => none
    let wRes :=
      match n.wild with
      | some (name, child) =>
        if seg.isEmpty then none
        else
          match searchNode child rest with
          | some (entries, params) => some (entries, ⟨⟨name⟩, ⟨unescapePercent seg⟩⟩ :: params)
          | none => none
      | none => none
    orOpt stRes (orOpt wRes (tryCatchAll n.catchA (seg :: rest)))

/-- Modelled from the spec: the three `Lookup` outcomes. -/
inductive LookupResult : Type where
  | found (handler : Nat) (params : List Param) : LookupResult
  | methodNotAllowed (methods : List String) : LookupResult
  | notFound : LookupResult
deriving DecidableEq

/-- Resolve the method table of a matched node. -/
def lookupSegs (t : Node) (method : String) (segs : List Str) : LookupResult :=
  match searchNode t segs with
  | some (entries, params) =>
    match entries.lookup method with
    | some handler => .found handler params
    | none => .methodNotAllowed (entries.map Prod.fst)
  | none => .notFound

/-- Modelled from the spec: `Lookup(method, path)` over the raw request
path (raw-path sourcing, the default configuration). -/
def lookup (t : Node) (method path : String) : LookupResult :=
  match path.data with
  | c :: rest => if c = '/' then lookupSegs t method (splitChars '/' rest) else .notFound
  | [] => .notFound

/-- The node reached from `t` by following an address of static and
wildcard steps (a catch-all child is not a tree vertex here: it has no
children of its own). -/
def nodeAt : Node → List Seg → Option Node
  | n, [] => some n
  | n, .static k :: rest =>
    match findStatic n.statics k with
    | some child => nodeAt child rest
    | none => none
  | n, .wildcard name :: rest =>
    match n.wild with
    | some (name1, child) => if name1 = name then nodeAt child rest else none
    | none => none
  | _, .catchAll _ :: _ => none

/-- Unwrap a successful insertion (used to build concrete test trees). -/
def okTree (r : Except String Node) : Node := r.toOption.getD emptyNode

/-- The tree of the spec's catch-all example, `/images/*path`. -/
def imagesTree : Node := okTree (insert emptyNode "GET" "/images/*path" 1)

/-- The tree of the spec's percent-encoding example, `/post/:post`. -/
def postTree : Node := okTree (insert emptyNode "GET" "/post/:post" 1)

/-- The tree of the spec's escaping example, `/foo/\*starToken`. -/
def starTree : Node := okTree (insert emptyNode "GET" "/foo/\\*starToken" 1)

/-- Static, wildcard and catch-all siblings registered in that order. -/
def prioTreeA : Node :=
  okTree (insert (okTree (insert (okTree (insert emptyNode "GET" "/x/static" 1))
    "GET" "/x/:w" 2)) "GET" "/x/*c" 3)

/-- The same three routes registered in the reverse order. -/
def prioTreeB : Node :=
  okTree (insert (okTree (insert (okTree (insert emptyNode "GET" "/x/*c" 3))
    "GET" "/x/:w" 2)) "GET" "/x/static" 1)

/-- Tree after registering `GET /posts/` (trailing slash). -/
def slashTree1 : Node := okTree (insert emptyNode "GET" "/posts/" 1)

/-- The node `slashTree1` stores for path `/posts`. -/
def postsNode1 : Node := .mk [("GET", 1)] (some true) [] none none

/-- The node `slashTree2` stores for path `/posts`. -/
def postsNode2 : Node := .mk [("GET", 1), ("POST", 2)] (some true) [] none none

/-- `slashTree1` after additionally registering `POST /posts` (no
trailing slash): the flag keeps its first-registered value. -/
def slashTree2 : Node := .mk [] none [("posts".data, postsNode2)] none none

/-- A terminal node holding the static route of the mixed-sibling
witness. -/
def staticLeaf : Node := .mk [("GET", 1)] (some false) [] none none

/-- A terminal node holding the wildcard route of the mixed-sibling
witness. -/
def wildLeaf : Node := .mk [("GET", 2)] (some false) [] none none

end Treemux

/-- A list is a (boolean) prefix of itself followed by anything. -/
theorem isPrefixOf_self_append (l m : List Char) : List.isPrefixOf l (l ++ m) = true := by
  induction l with
  | nil => simp [List.isPrefixOf]
  | cons a t ih => simp [List.isPrefixOf, ih]

/-- Every attribute produced by `paramAttr` carries the
`"http.route.param."` key prefix. -/
theorem isRouteParamAttr_paramAttr (param : Param) :
    isRouteParamAttr (paramAttr param) = true := by
  simp only [isRouteParamAttr, paramAttr, String.data_append]
  exact isPrefixOf_self_append _ _

/-- The `http.route` attribute does not look like a parameter attribute. -/
theorem isRouteParamAttr_route (v : String) :
    isRouteParamAttr ⟨"http.route", v⟩ = false := rfl

/-- The `http.client_ip` attribute does not look like a parameter attribute. -/
theorem isRouteParamAttr_clientIP (v : String) :
    isRouteParamAttr ⟨"http.client_ip", v⟩ = false := rfl

/-- The attribute batch set by the middleware on a recording span:
route attribute, optional client-ip attribute, then one attribute per
parameter, in order. -/
theorem middleware_attrs (c : config) (next : HandlerFunc) (w : ResponseWriter)
    (req : Request) (h : req.spanRecording = true) :
    (Middleware c next w req).1
      = [⟨"http.route", req.route⟩]
        ++ (if c.clientIP then [⟨"http.client_ip", remoteAddr req.request⟩] else [])
        ++ req.Params.map paramAttr := by
  unfold Middleware
  rw [h]
  by_cases hc : c.clientIP <;> simp [hc]

/-- C1: for every request whose span is recording, the handler returned
by `Middleware` sets exactly one span attribute per entry of
`req.Params`, in order, with key `"http.route.param."` plus the name
(`"*"` for the empty name) and the value unchanged: the sublist of
attributes carrying the parameter-key prefix is exactly
`req.Params.map paramAttr`. -/
theorem c1 (c : config) (next : HandlerFunc) (w : ResponseWriter) (req : Request)
    (h : req.spanRecording = true) :
    ((Middleware c next w req).1).filter isRouteParamAttr = req.Params.map paramAttr := by
  rw [middleware_attrs c next w req h]
  rw [List.filter_append, List.filter_append]
  have hmap : List.filter isRouteParamAttr (req.Params.map paramAttr)
      = req.Params.map paramAttr :=
    List.filter_eq_self.mpr (fun a ha => by
      obtain ⟨param, _, rfl⟩ := List.mem_map.mp ha
      exact isRouteParamAttr_paramAttr param)
  rw [hmap]
  by_cases hc : c.clientIP <;>
    simp [hc, List.filter_cons, isRouteParamAttr_route, isRouteParamAttr_clientIP]

/-- Witness for C1 at a concrete recording request with a named and an
anonymous parameter. -/
theorem c1_witness :
    reqRec.spanRecording = true ∧
    ((Middleware ⟨true⟩ nextNone writer0 reqRec).1).filter isRouteParamAttr
      = reqRec.Params.map paramAttr :=
  ⟨rfl, c1 ⟨true⟩ nextNone writer0 reqRec rfl⟩

/-- C2: the wrapped handler returns exactly `next w req`, recording or
not; the middleware never replaces, swallows or adds to the handler's
outcome. -/
theorem c2 (c : config) (next : HandlerFunc) (w : ResponseWriter) (req : Request) :
    (Middleware c next w req).2 = next w req := by
  unfold Middleware
  by_cases h : req.spanRecording <;> simp [h]

/-- C8: for a non-recording span the middleware calls `next`
immediately and sets no span attributes at all. -/
theorem c8 (c : config) (next : HandlerFunc) (w : ResponseWriter) (req : Request)
    (h : req.spanRecording = false) :
    Middleware c next w req = ([], next w req) := by
  unfold Middleware
  rw [h]
  rfl

/-- Witness for C8 at a concrete non-recording request. -/
theorem c8_witness :
    reqNoRec.spanRecording = false ∧
    Middleware ⟨true⟩ nextNone writer0 reqNoRec = ([], nextNone writer0 reqNoRec) :=
  ⟨rfl, c8 ⟨true⟩ nextNone writer0 reqNoRec rfl⟩

/-- The default of `getD` on the last element of a non-empty list is
irrelevant. -/
theorem getD_getLast?_cons (u : Bool) (us : List Bool) (x y : Bool) :
    ((u :: us).getLast?).getD x = ((u :: us).getLast?).getD y := by
  induction us generalizing u with
  | nil => rfl
  | cons v vs ih => rw [List.getLast?_cons_cons]; exact ih v

/-- Folding `WithClientIP` options over any starting config leaves the
last option's argument, or the starting value when there is none. -/
theorem foldl_withClientIP (bs : List Bool) :
    ∀ c : config, (List.foldl (fun cfg opt => opt cfg) c (bs.map WithClientIP)).clientIP
      = (bs.getLast?).getD c.clientIP := by
  induction bs with
  | nil => intro c; rfl
  | cons b t ih =>
    intro c
    simp only [List.map_cons, List.foldl_cons]
    rw [ih (WithClientIP b c)]
    cases t with
    | nil => rfl
    | cons u us =>
      rw [List.getLast?_cons_cons]
      exact getD_getLast?_cons u us _ _

/-- The config built by `NewMiddleware` from `WithClientIP` options:
last option wins, default `true`. -/
theorem newMiddlewareConfig_clientIP (bs : List Bool) :
    (newMiddlewareConfig (bs.map WithClientIP)).clientIP = (bs.getLast?).getD true := by
  unfold newMiddlewareConfig
  exact foldl_withClientIP bs ⟨true⟩

/-- A parameter attribute never carries the `http.client_ip` key: its
key is strictly longer. -/
theorem isClientIPAttr_paramAttr (param : Param) :
    isClientIPAttr (paramAttr param) = false := by
  simp only [isClientIPAttr, paramAttr]
  rw [beq_eq_false_iff_ne]
  intro hEq
  have hd := congrArg String.data hEq
  rw [String.data_append] at hd
  have hl := congrArg List.length hd
  rw [List.length_append] at hl
  have h17 : ("http.route.param.".data).length = 17 := rfl
  have h14 : ("http.client_ip".data).length = 14 := rfl
  rw [h17, h14] at hl
  omega

/-- The route attribute does not carry the `http.client_ip` key. -/
theorem isClientIPAttr_route (v : String) : isClientIPAttr ⟨"http.route", v⟩ = false := rfl

/-- The client-ip attribute carries the `http.client_ip` key. -/
theorem isClientIPAttr_clientIP (v : String) : isClientIPAttr ⟨"http.client_ip", v⟩ = true := rfl

/-- No parameter attribute in a batch carries the `http.client_ip` key. -/
theorem any_paramAttrs_clientIP (params : List Param) :
    (params.map paramAttr).any isClientIPAttr = false := by
  rw [List.any_eq_false]
  intro x hx
  obtain ⟨param, _, rfl⟩ := List.mem_map.mp hx
  simp [isClientIPAttr_paramAttr]

/-- On a recording span the middleware sets an `http.client_ip`
attribute if and only if the config's `clientIP` field is set. -/
theorem middleware_any_clientIP (c : config) (next : HandlerFunc) (w : ResponseWriter)
    (req : Request) (h : req.spanRecording = true) :
    ((Middleware c next w req).1).any isClientIPAttr = c.clientIP := by
  rw [middleware_attrs c next w req h]
  by_cases hc : c.clientIP <;>
    simp [hc, List.any_append, List.any_cons, isClientIPAttr_route, isClientIPAttr_clientIP,
      any_paramAttrs_clientIP]

/-- C9: `NewMiddleware` folds its options left to right over a config
defaulting to `clientIP = true`, so the last `WithClientIP` wins; for a
recording span the `http.client_ip` attribute is set exactly when the
resulting flag is true (and with no options it is always set, the
`bs = []` instance). -/
theorem c9 (bs : List Bool) (next : HandlerFunc) (w : ResponseWriter) (req : Request)
    (h : req.spanRecording = true) :
    (newMiddlewareConfig (bs.map WithClientIP)).clientIP = (bs.getLast?).getD true ∧
    ((NewMiddleware (bs.map WithClientIP) next w req).1).any isClientIPAttr
      = (bs.getLast?).getD true := by
  refine ⟨newMiddlewareConfig_clientIP bs, ?_⟩
  rw [← newMiddlewareConfig_clientIP bs]
  exact middleware_any_clientIP (newMiddlewareConfig (bs.map WithClientIP)) next w req h

/-- Witness for C9: one `WithClientIP false` option at a concrete
recording request. -/
theorem c9_witness :
    reqRec.spanRecording = true ∧
    ((newMiddlewareConfig (List.map WithClientIP [false])).clientIP
        = (List.getLast? [false]).getD true ∧
      ((NewMiddleware (List.map WithClientIP [false]) nextNone writer0 reqRec).1).any
          isClientIPAttr
        = (List.getLast? [false]).getD true) :=
  ⟨rfl, c9 [false] nextNone writer0 reqRec rfl⟩

/-- C10: `remoteAddr` is total; it returns `X-Forwarded-For` verbatim
when that header is non-empty, otherwise the host half of
`net.SplitHostPort(req.RemoteAddr)`, which is the empty string whenever
the address is not in host:port form — the split error is discarded,
not propagated. -/
theorem c10 (req : HttpRequest) :
    (req.xForwardedFor ≠ "" → remoteAddr req = req.xForwardedFor) ∧
    (req.xForwardedFor = "" → remoteAddr req = (splitHostPort req.RemoteAddr).1) ∧
    (∀ e, splitHostPortChars req.RemoteAddr.data = .error e →
      (splitHostPort req.RemoteAddr).1 = "") := by
  refine ⟨?_, ?_, ?_⟩
  · intro h
    unfold remoteAddr
    simp [h]
  · intro h
    unfold remoteAddr
    simp [h]
  · intro e he
    simp [splitHostPort, he]

/-- Witness for C10: a host:port address with an empty header, a
non-empty header returned verbatim, and a malformed address collapsing
to the empty host. -/
theorem c10_witness :
    remoteAddr ⟨"", "1.2.3.4:80"⟩ = (splitHostPort "1.2.3.4:80").1 ∧
    remoteAddr ⟨"proxy1", "1.2.3.4:80"⟩ = "proxy1" ∧
    (splitHostPort "localhost").1 = "" :=
  ⟨(c10 ⟨"", "1.2.3.4:80"⟩).2.1 rfl,
   (c10 ⟨"proxy1", "1.2.3.4:80"⟩).1 (by decide),
   (c10 ⟨"", "localhost"⟩).2.2 "missing port in address" rfl⟩

namespace Treemux

/-- C3: whenever the static child under the next segment exists and its
subtree fully matches the remainder, the node's match is exactly that
static result — the wildcard and catch-all siblings are never
consulted, for every tree shape (hence regardless of registration
order); concretely, with static, wildcard and catch-all routes for the
same position registered in either order, the static path returns the
static handler. -/
theorem c3 (entries : List (String × Nat)) (slash : Option Bool)
    (statics : List (Str × Node)) (wild : Option (Str × Node))
    (catchA : Option (Str × List (String × Nat)))
    (seg : Str) (rest : List Str) (child : Node)
    (r : List (String × Nat) × List Param)
    (hfind : findStatic statics seg = some child)
    (hsub : searchNode child rest = some r) :
    searchNode (Node.mk entries slash statics wild catchA) (seg :: rest) = some r ∧
    lookup prioTreeA "GET" "/x/static" = .found 1 [] ∧
    lookup prioTreeB "GET" "/x/static" = .found 1 [] := by
  refine ⟨?_, by decide, by decide⟩
  simp only [searchNode, Node.statics_mk, hfind, hsub, orOpt_some]

/-- Witness for C3: a node with static, wildcard and catch-all
siblings in which the static child matches the path remainder. -/
theorem c3_witness :
    findStatic [("static".data, staticLeaf)] "static".data = some staticLeaf ∧
    searchNode staticLeaf [] = some ([("GET", 1)], []) ∧
    (searchNode (Node.mk [] none [("static".data, staticLeaf)]
        (some ("w".data, wildLeaf)) (some ("c".data, [("GET", 3)])))
        ["static".data] = some ([("GET", 1)], []) ∧
      lookup prioTreeA "GET" "/x/static" = .found 1 [] ∧
      lookup prioTreeB "GET" "/x/static" = .found 1 []) :=
  ⟨rfl, rfl, c3 [] none [("static".data, staticLeaf)] (some ("w".data, wildLeaf))
    (some ("c".data, [("GET", 3)])) "static".data [] staticLeaf ([("GET", 1)], []) rfl rfl⟩

/-- C4: a catch-all child never matches when the remainder it would
capture is empty; in particular `/images/*path` matches neither
`/images/` nor `/images`. -/
theorem c4 :
    (∀ (name : Str) (entries : List (String × Nat)) (segs : List Str),
      joinSlash segs = [] → tryCatchAll (some (name, entries)) segs = none) ∧
    lookup imagesTree "GET" "/images/" = .notFound ∧
    lookup imagesTree "GET" "/images" = .notFound := by
  refine ⟨?_, by decide, by decide⟩
  intro name entries segs hrem
  simp [tryCatchAll, hrem]

/-- Witness for C4: the catch-all rejection applied to the empty
remainder left of `/images/`. -/
theorem c4_witness :
    joinSlash ([[]] : List Str) = [] ∧
    tryCatchAll (some ("path".data, [("GET", 1)])) [[]] = none :=
  ⟨rfl, c4.1 "path".data [("GET", 1)] [[]] rfl⟩

/-- C5: with raw-path sourcing, the wildcard pattern `/post/:post`
matches the request path `/post/abc%2Fdef` and binds the decoded value
`post = "abc/def"`. -/
theorem c5 : lookup postTree "GET" "/post/abc%2Fdef" = .found 1 [⟨"post", "abc/def"⟩] := by
  decide

end Treemux

namespace Treemux

/-- Splitting never produces an empty segment list. -/
theorem splitChars_ne_nil (sep : Char) (l : List Char) : splitChars sep l ≠ [] := by
  cases l with
  | nil => simp [splitChars]
  | cons c rest =>
    simp only [splitChars]
    cases h : splitChars sep rest with
    | nil => simp
    | cons s ss => by_cases hc : c = sep <;> simp [hc]

/-- Joining the split segments restores the original path. -/
theorem joinSlash_splitChars (l : List Char) : joinSlash (splitChars '/' l) = l := by
  induction l with
  | nil => rfl
  | cons c rest ih =>
    cases h : splitChars '/' rest with
    | nil => exact absurd h (splitChars_ne_nil '/' rest)
    | cons s ss =>
      rw [h] at ih
      by_cases hc : c = '/'
      · subst hc
        simp only [splitChars, h, if_true]
        simp only [joinSlash, List.nil_append]
        rw [ih]
      · simp only [splitChars, h]
        rw [if_neg hc]
        cases ss with
        | nil =>
          simp only [joinSlash] at ih ⊢
          rw [ih]
        | cons s2 ss2 =>
          simp only [joinSlash] at ih ⊢
          rw [List.cons_append, ih]

/-- The explicit shape of `starTree`: the escape was resolved at
registration time, so the tree holds the literal fragment
`*starToken` as a static child. -/
theorem starTree_eq : starTree = Node.mk [] none [("foo".data,
    Node.mk [] none [("*starToken".data, Node.mk [("GET", 1)] (some false) [] none none)]
      none none)] none none := rfl

/-- The only segment sequence `starTree` matches is
`["foo", "*starToken"]`. -/
theorem searchNode_starTree (segs : List Str) (r : List (String × Nat) × List Param)
    (h : searchNode starTree segs = some r) :
    segs = ["foo".data, "*starToken".data] := by
  rw [starTree_eq] at h
  cases segs with
  | nil => simp [searchNode] at h
  | cons seg rest =>
    simp only [searchNode, Node.statics_mk, Node.wild_mk, Node.catchA_mk, findStatic,
      tryCatchAll, orOpt_none_right] at h
    by_cases h1 : "foo".data = seg
    · rw [if_pos h1] at h
      subst h1
      cases rest with
      | nil => simp [searchNode] at h
      | cons seg2 rest2 =>
        simp only [searchNode, Node.statics_mk, Node.wild_mk, Node.catchA_mk, findStatic,
          tryCatchAll, orOpt_none_right] at h
        by_cases h2 : "*starToken".data = seg2
        · rw [if_pos h2] at h
          subst h2
          cases rest2 with
          | nil => rfl
          | cons seg3 rest3 =>
            simp only [searchNode, Node.statics_mk, Node.wild_mk, Node.catchA_mk, findStatic,
              tryCatchAll, orOpt_none_right] at h
            exact Option.noConfusion h
        · rw [if_neg h2] at h
          simp at h
    · rw [if_neg h1] at h
      simp at h

/-- C6: a pattern whose leading `*` is escaped with a backslash
matches exactly the literal path: `/foo/\*starToken` matches
`/foo/*starToken` and no other request path. -/
theorem c6 :
    lookup starTree "GET" "/foo/*starToken" = .found 1 [] ∧
    ∀ p : String, lookup starTree "GET" p ≠ .notFound → p = "/foo/*starToken" := by
  refine ⟨by decide, ?_⟩
  intro p hp
  unfold lookup at hp
  cases hd : p.data with
  | nil =>
    simp only [hd] at hp
    exact absurd rfl hp
  | cons c rest =>
    simp only [hd] at hp
    by_cases hc : c = '/'
    · subst hc
      rw [if_pos rfl] at hp
      unfold lookupSegs at hp
      cases hs : searchNode starTree (splitChars '/' rest) with
      | none =>
        simp only [hs] at hp
        exact absurd rfl hp
      | some res =>
        have hsegs := searchNode_starTree _ res hs
        have hrest : rest = "foo/*starToken".data := by
          have hjoin := joinSlash_splitChars rest
          rw [hsegs] at hjoin
          exact hjoin.symm.trans rfl
        apply String.ext
        rw [hd, hrest]
    · rw [if_neg hc] at hp
      exact absurd rfl hp

/-- Witness for C6: the literal path does match, so the hypothesis of
the uniqueness half is satisfiable. -/
theorem c6_witness :
    lookup starTree "GET" "/foo/*starToken" ≠ LookupResult.notFound ∧
    ("/foo/*starToken" : String) = "/foo/*starToken" :=
  ⟨by decide, c6.2 "/foo/*starToken" (by decide)⟩

end Treemux

namespace Treemux

/-- Unfolding `nodeAt` at the empty address. -/
theorem nodeAt_mk_nil (e s st w cA) :
    nodeAt (.mk e s st w cA) [] = some (.mk e s st w cA) := rfl

/-- Unfolding `nodeAt` at a static step. -/
theorem nodeAt_mk_static (e s st w cA k addr2) :
    nodeAt (.mk e s st w cA) (.static k :: addr2)
      = match findStatic st k with
        | some child => nodeAt child addr2
        | none => none := rfl

/-- Unfolding `nodeAt` at a wildcard step. -/
theorem nodeAt_mk_wild (e s st w cA nm addr2) :
    nodeAt (.mk e s st w cA) (.wildcard nm :: addr2)
      = match w with
        | some (n1, child) => if n1 = nm then nodeAt child addr2 else none
        | none => none := rfl

/-- A catch-all step never addresses a tree vertex. -/
theorem nodeAt_mk_catchAll (e s st w cA nm addr2) :
    nodeAt (.mk e s st w cA) (.catchAll nm :: addr2) = none := rfl

/-- After `setStatic`, the written key maps to the written child. -/
theorem findStatic_setStatic_self (statics : List (Str × Node)) (k : Str) (v : Node) :
    findStatic (setStatic statics k v) k = some v := by
  induction statics with
  | nil => simp [setStatic, findStatic]
  | cons p rest ih =>
    obtain ⟨k1, v1⟩ := p
    by_cases hk : k1 = k
    · simp [setStatic, findStatic, hk]
    · simp [setStatic, findStatic, hk, ih]

/-- `setStatic` leaves every other key unchanged. -/
theorem findStatic_setStatic_ne (statics : List (Str × Node)) (k k2 : Str) (v : Node)
    (hne : k ≠ k2) :
    findStatic (setStatic statics k v) k2 = findStatic statics k2 := by
  induction statics with
  | nil => simp [setStatic, findStatic, hne]
  | cons p rest ih =>
    obtain ⟨k1, v1⟩ := p
    by_cases hk : k1 = k
    · subst hk
      simp [setStatic, findStatic, hne, ih]
    · simp [setStatic, findStatic, hk, ih]

/-- A successful insertion preserves every already-set trailing-slash
flag, at every node of the tree: the flag only moves from `none` to
`some`, never from `some` to a different value. -/
theorem insertNode_keeps_slash :
    ∀ (segs : List Seg) (n n2 : Node) (hs : Bool) (m : String) (hd : Nat),
      insertNode segs n hs m hd = .ok n2 →
      ∀ (addr : List Seg) (nd : Node) (b : Bool),
        nodeAt n addr = some nd → nd.slash = some b →
        ∃ nd2, nodeAt n2 addr = some nd2 ∧ nd2.slash = some b := by
  intro segs
  induction segs with
  | nil =>
    intro n n2 hs m hd hins addr nd b hnode hflag
    obtain ⟨e, s, st, w, cA⟩ := n
    simp only [insertNode] at hins
    split at hins
    · exact Except.noConfusion hins
    · rw [Except.ok.injEq] at hins
      subst hins
      cases addr with
      | nil =>
        rw [nodeAt_mk_nil, Option.some.injEq] at hnode
        subst hnode
        simp only [Node.slash_mk] at hflag
        subst hflag
        exact ⟨_, rfl, rfl⟩
      | cons a addr2 =>
        cases a with
        | static k =>
          rw [nodeAt_mk_static] at hnode ⊢
          exact ⟨nd, hnode, hflag⟩
        | wildcard nm =>
          rw [nodeAt_mk_wild] at hnode ⊢
          exact ⟨nd, hnode, hflag⟩
        | catchAll nm => rw [nodeAt_mk_catchAll] at hnode; exact Option.noConfusion hnode
  | cons seg rest ih =>
    intro n n2 hs m hd hins addr nd b hnode hflag
    obtain ⟨e, s, st, w, cA⟩ := n
    cases seg with
    | static frag =>
      simp only [insertNode] at hins
      cases hrec : insertNode rest ((findStatic st frag).getD emptyNode) hs m hd with
      | error e2 =>
        simp only [hrec] at hins
        exact Except.noConfusion hins
      | ok child =>
        simp only [hrec] at hins
        rw [Except.ok.injEq] at hins
        subst hins
        cases addr with
        | nil =>
          rw [nodeAt_mk_nil, Option.some.injEq] at hnode
          subst hnode
          simp only [Node.slash_mk] at hflag
          exact ⟨_, rfl, by simp [hflag]⟩
        | cons a addr2 =>
          cases a with
          | static k =>
            by_cases hk : frag = k
            · subst hk
              rw [nodeAt_mk_static] at hnode
              simp only [nodeAt_mk_static, findStatic_setStatic_self]
              cases hfs : findStatic st frag with
              | none =>
                rw [hfs] at hnode
                exact Option.noConfusion hnode
              | some c0 =>
                rw [hfs] at hnode
                rw [hfs, Option.getD_some] at hrec
                exact ih c0 child hs m hd hrec addr2 nd b hnode hflag
            · rw [nodeAt_mk_static] at hnode ⊢
              rw [findStatic_setStatic_ne st frag k child hk]
              exact ⟨nd, hnode, hflag⟩
          | wildcard nm =>
            rw [nodeAt_mk_wild] at hnode ⊢
            exact ⟨nd, hnode, hflag⟩
          | catchAll nm => rw [nodeAt_mk_catchAll] at hnode; exact Option.noConfusion hnode
    | wildcard name =>
      cases w with
      | none =>
        simp only [insertNode] at hins
        cases hrec : insertNode rest emptyNode hs m hd with
        | error e2 =>
          simp only [hrec] at hins
          exact Except.noConfusion hins
        | ok child =>
          simp only [hrec] at hins
          rw [Except.ok.injEq] at hins
          subst hins
          cases addr with
          | nil =>
            rw [nodeAt_mk_nil, Option.some.injEq] at hnode
            subst hnode
            simp only [Node.slash_mk] at hflag
            exact ⟨_, rfl, by simp [hflag]⟩
          | cons a addr2 =>
            cases a with
            | static k =>
              rw [nodeAt_mk_static] at hnode ⊢
              exact ⟨nd, hnode, hflag⟩
            | wildcard nm =>
              rw [nodeAt_mk_wild] at hnode
              exact Option.noConfusion hnode
            | catchAll nm => rw [nodeAt_mk_catchAll] at hnode; exact Option.noConfusion hnode
      | some p =>
        obtain ⟨name1, child0⟩ := p
        simp only [insertNode] at hins
        by_cases hn : name1 = name
        · rw [if_pos hn] at hins
          cases hrec : insertNode rest child0 hs m hd with
          | error e2 =>
            simp only [hrec] at hins
            exact Except.noConfusion hins
          | ok child =>
            simp only [hrec] at hins
            rw [Except.ok.injEq] at hins
            subst hins
            cases addr with
            | nil =>
              rw [nodeAt_mk_nil, Option.some.injEq] at hnode
              subst hnode
              simp only [Node.slash_mk] at hflag
              exact ⟨_, rfl, by simp [hflag]⟩
            | cons a addr2 =>
              cases a with
              | static k =>
                rw [nodeAt_mk_static] at hnode ⊢
                exact ⟨nd, hnode, hflag⟩
              | wildcard nm =>
                simp only [nodeAt_mk_wild] at hnode ⊢
                by_cases h2 : name1 = nm
                · rw [if_pos h2] at hnode
                  rw [if_pos h2]
                  exact ih child0 child hs m hd hrec addr2 nd b hnode hflag
                · rw [if_neg h2] at hnode
                  exact Option.noConfusion hnode
              | catchAll nm => rw [nodeAt_mk_catchAll] at hnode; exact Option.noConfusion hnode
        · rw [if_neg hn] at hins
          exact Except.noConfusion hins
    | catchAll name =>
      cases rest with
      | nil =>
        cases cA with
        | none =>
          simp only [insertNode] at hins
          rw [Except.ok.injEq] at hins
          subst hins
          cases addr with
          | nil =>
            rw [nodeAt_mk_nil, Option.some.injEq] at hnode
            subst hnode
            simp only [Node.slash_mk] at hflag
            exact ⟨_, rfl, by simp [hflag]⟩
          | cons a addr2 =>
            cases a with
            | static k =>
              rw [nodeAt_mk_static] at hnode ⊢
              exact ⟨nd, hnode, hflag⟩
            | wildcard nm =>
              rw [nodeAt_mk_wild] at hnode ⊢
              exact ⟨nd, hnode, hflag⟩
            | catchAll nm => rw [nodeAt_mk_catchAll] at hnode; exact Option.noConfusion hnode
        | some p =>
          obtain ⟨name1, centries⟩ := p
          simp only [insertNode] at hins
          by_cases hn : name1 = name
          · rw [if_pos hn] at hins
            split at hins
            · exact Except.noConfusion hins
            · rw [Except.ok.injEq] at hins
              subst hins
              cases addr with
              | nil =>
                rw [nodeAt_mk_nil, Option.some.injEq] at hnode
                subst hnode
                simp only [Node.slash_mk] at hflag
                exact ⟨_, rfl, by simp [hflag]⟩
              | cons a addr2 =>
                cases a with
                | static k =>
                  rw [nodeAt_mk_static] at hnode ⊢
                  exact ⟨nd, hnode, hflag⟩
                | wildcard nm =>
                  rw [nodeAt_mk_wild] at hnode ⊢
                  exact ⟨nd, hnode, hflag⟩
                | catchAll nm => rw [nodeAt_mk_catchAll] at hnode; exact Option.noConfusion hnode
          · rw [if_neg hn] at hins
            exact Except.noConfusion hins
      | cons seg2 rest2 =>
        simp only [insertNode] at hins
        exact Except.noConfusion hins

/-- C7: once a pattern has set a node's trailing-slash flag, any later
successful registration — another method, with or without a trailing
slash — that reaches the same node leaves the flag unchanged: the
first-registered value for that path wins. -/
theorem c7 (t t2 : Node) (method pattern : String) (handler : Nat)
    (addr : List Seg) (nd : Node) (b : Bool)
    (hins : insert t method pattern handler = .ok t2)
    (hnode : nodeAt t addr = some nd) (hflag : nd.slash = some b) :
    ∃ nd2, nodeAt t2 addr = some nd2 ∧ nd2.slash = some b := by
  unfold insert at hins
  cases hp : parsePattern pattern with
  | error e =>
    simp only [hp] at hins
    exact Except.noConfusion hins
  | ok pr =>
    obtain ⟨segs, hasSlash⟩ := pr
    simp only [hp] at hins
    exact insertNode_keeps_slash segs t t2 hasSlash method handler hins addr nd b hnode hflag

/-- Witness for C7: `GET /posts/` sets the flag, the later
`POST /posts` (opposite slash presence) leaves it `some true`. -/
theorem c7_witness :
    insert slashTree1 "POST" "/posts" 2 = .ok slashTree2 ∧
    nodeAt slashTree1 [Seg.static "posts".data] = some postsNode1 ∧
    postsNode1.slash = some true ∧
    ∃ nd2, nodeAt slashTree2 [Seg.static "posts".data] = some nd2 ∧ nd2.slash = some true :=
  ⟨rfl, rfl, rfl,
   c7 slashTree1 slashTree2 "POST" "/posts" 2 [Seg.static "posts".data] postsNode1 true
     rfl rfl rfl⟩

end Treemux
